import Mathlib

set_option maxRecDepth 100000

/-!
Verification development for the OfSM backend (src/backend.py).

Strings are modelled as `List Char`.  Python regular-expression passes are
embedded as dedicated matchers, one per pattern of `ARTIFACT_PATTERNS`,
each returning the length of the (leftmost) match starting at the head of
the list, together with a generic substitution pass `subAll` that mirrors
`re.sub` (scan left to right, replace each non-overlapping match, continue
after the match).  Case-insensitive matching (`re.IGNORECASE`, `str.lower`)
is modelled by the ASCII lowering `lowerN`.
-/

namespace OfSM

/-- Characters of a string literal, the Python `str` as a `List Char`. -/
def chars (s : String) : List Char := s.data

/-- Python whitespace class on ASCII text: space, tab, newline, carriage
return, vertical tab, form feed.  Used by the regex class and `str.strip`. -/
def pyWS (c : Char) : Bool :=
  c.toNat = 32 || c.toNat = 9 || c.toNat = 10 || c.toNat = 13 || c.toNat = 11 || c.toNat = 12

/-- ASCII lowering of a code point, the character action of `str.lower`. -/
def lowerN (n : Nat) : Nat := if 65 ≤ n && n ≤ 90 then n + 32 else n

/-- Case-insensitive character equality (ASCII), as produced by
`re.IGNORECASE` or by comparing against `text.lower()`. -/
def eqCI (a b : Char) : Bool := lowerN a.toNat = lowerN b.toNat

/-- Decimal digit, the regex class of a digit. -/
def isDigitC (c : Char) : Bool := 48 ≤ c.toNat && c.toNat ≤ 57

/-- Does the input (first argument) start with the literal word
(second argument), case-insensitively? -/
def startsWithCI : List Char → List Char → Bool
  | _, [] => true
  | [], _ :: _ => false
  | c :: cs, d :: ds => eqCI c d && startsWithCI cs ds

/-- Case-insensitive substring test: `pat in haystack.lower()` for a
lowercase `pat`. -/
def containsCI (pat : List Char) : List Char → Bool
  | [] => pat.isEmpty
  | c :: cs => startsWithCI (c :: cs) pat || containsCI pat cs

/-- Python `str.strip()`: drop whitespace from both ends. -/
def stripPy (l : List Char) : List Char :=
  ((l.dropWhile pyWS).reverse.dropWhile pyWS).reverse

/-- Python `str.split` on a newline. -/
def splitOnNl : List Char → List (List Char)
  | [] => [[]]
  | c :: cs =>
    if c = '\n' then [] :: splitOnNl cs
    else
      match splitOnNl cs with
      | l :: ls => (c :: l) :: ls
      | [] => [[c]]

/-- Length of the run of literal dots at the head of the list. -/
def dotRun (l : List Char) : Nat := (l.takeWhile (fun c => c = '.')).length

/-- Pattern `No hashtags\.*`: the literal phrase then a greedy run of dots. -/
def matchNoHashtags (l : List Char) : Option Nat :=
  if startsWithCI l (chars "no hashtags") then some (11 + dotRun (l.drop 11)) else none

/-- Lazy scan of `.*?:`: index of the first colon reachable without
crossing a newline (the dot class excludes newlines). -/
def scanColon : List Char → Option Nat
  | [] => none
  | c :: cs =>
    if c = ':' then some 0
    else if c = '\n' then none
    else (scanColon cs).map (· + 1)

/-- Pattern `Include.*?:`. -/
def matchIncludeColon (l : List Char) : Option Nat :=
  if startsWithCI l (chars "include") then (scanColon (l.drop 7)).map (fun j => 7 + j + 1) else none

/-- Tail of the emoji pattern: `emojis?` with a greedy optional final s. -/
def matchEmojiTail (l : List Char) : Option Nat :=
  if startsWithCI l (chars "emoji") then
    match l.drop 5 with
    | c :: _ => if eqCI c 's' then some 6 else some 5
    | [] => some 5
  else none

/-- The optional group `at least \d+ ` followed by the emoji tail. -/
def matchAtLeastTail (l : List Char) : Option Nat :=
  if startsWithCI l (chars "at least ") then
    let r := l.drop 9
    let k := (r.takeWhile isDigitC).length
    if 0 < k then
      match r.drop k with
      | ' ' :: rest => (matchEmojiTail rest).map (fun n => 9 + k + 1 + n)
      | _ => none
    else none
  else none

/-- Pattern `Use (at least \d+ )?emojis?`: the greedy optional group is
tried first, exactly as the backtracking engine does. -/
def matchUseEmojis (l : List Char) : Option Nat :=
  if startsWithCI l (chars "use ") then
    match matchAtLeastTail (l.drop 4) with
    | some n => some (4 + n)
    | none => (matchEmojiTail (l.drop 4)).map (fun n => 4 + n)
  else none

/-- A fixed literal pattern, matched case-insensitively. -/
def matchLit (w : List Char) (l : List Char) : Option Nat :=
  if startsWithCI l w then some w.length else none

/-- Greedy scan of `.{0,30}\.`: the largest index `i ≤ 30` holding a dot,
with no newline before it.  Dots already passed stay candidates, so the
scan records the last dot seen. -/
def scanDot : List Char → Nat → Option Nat → Option Nat
  | [], _, best => best
  | c :: cs, i, best =>
    if 30 < i then best
    else if c = '.' then scanDot cs (i + 1) (some i)
    else if c = '\n' then best
    else scanDot cs (i + 1) best

/-- Pattern `as .{0,30}\.`. -/
def matchAsDot (l : List Char) : Option Nat :=
  if startsWithCI l (chars "as ") then (scanDot (l.drop 3) 0 none).map (fun i => 3 + i + 1) else none

/-- Pattern `Be .{0,30}\.`. -/
def matchBeDot (l : List Char) : Option Nat :=
  if startsWithCI l (chars "be ") then (scanDot (l.drop 3) 0 none).map (fun i => 3 + i + 1) else none

/-- Index of the first occurrence of a character. -/
def scanFor (t : Char) : List Char → Option Nat
  | [] => none
  | c :: cs => if c = t then some 0 else (scanFor t cs).map (· + 1)

/-- Pattern `\[[^\]]+\]`: an opening bracket, at least one non-bracket
character, and the first closing bracket. -/
def matchBracket (l : List Char) : Option Nat :=
  match l with
  | '[' :: rest =>
    match scanFor ']' rest with
    | some j => if 0 < j then some (j + 2) else none
    | none => none
  | _ => none

/-- Pattern `\([^\)]*instructions[^\)]*\)`: a parenthesis pair whose body
(which cannot cross a closing parenthesis) contains the word. -/
def matchParenInstr (l : List Char) : Option Nat :=
  match l with
  | '(' :: rest =>
    match scanFor ')' rest with
    | some j => if containsCI (chars "instructions") (rest.take j) then some (j + 2) else none
    | none => none
  | _ => none

/-- Pattern `\s+`: a maximal non-empty whitespace run. -/
def matchWS (l : List Char) : Option Nat :=
  let k := (l.takeWhile pyWS).length
  if 0 < k then some k else none

/-- Fuelled scan of `re.sub`: the fuel only bounds the recursion depth and
never runs out when it starts at the input length, since every step
consumes at least one character. -/
def subAllF (m : List Char → Option Nat) (rep : List Char) : Nat → List Char → List Char
  | 0, l => l
  | _, [] => []
  | fuel + 1, c :: cs =>
    match m (c :: cs) with
    | some (n + 1) => rep ++ subAllF m rep fuel (cs.drop n)
    | _ => c :: subAllF m rep fuel cs

/-- `re.sub(pattern, rep, text)` for a matcher that reports match lengths:
scan left to right, replace each leftmost non-overlapping match by `rep`,
resume after the match.  All matchers here only report positive lengths. -/
def subAll (m : List Char → Option Nat) (rep : List Char) (l : List Char) : List Char :=
  subAllF m rep l.length l

/-- `ARTIFACT_PATTERNS`, in source order. -/
def artifactMatchers : List (List Char → Option Nat) :=
  [ matchNoHashtags
  , matchIncludeColon
  , matchUseEmojis
  , matchLit (chars "use internet slang")
  , matchLit (chars "use sarcasm")
  , matchLit (chars "story:")
  , matchLit (chars "the story must be")
  , matchLit (chars "no passive voice")
  , matchLit (chars "keep it under")
  , matchLit (chars "write a short comment")
  , matchAsDot
  , matchBeDot ]

/-- The loop over `ARTIFACT_PATTERNS`: each pattern is substituted away in
turn, replacement empty. -/
def stripArtifacts (l : List Char) : List Char :=
  artifactMatchers.foldl (fun t m => subAll m [] t) l

/-- Sentence-terminating punctuation, the regex class of the split. -/
def sentenceStop (c : Char) : Bool := c = '.' || c = '!' || c = '?'

/-- First element of `re.split` on sentence terminators: the prefix before
the first terminator. -/
def firstSentence (l : List Char) : List Char := l.takeWhile (fun c => !sentenceStop c)

/-- The secondary denylist checked on the processed text. -/
def secondaryMarkers : List (List Char) :=
  [chars "include", chars "use at least", chars "write a", chars "post:"]

/-- Does the processed text still contain an obvious instruction? -/
def secondaryHit (l : List Char) : Bool := secondaryMarkers.any (fun m => containsCI m l)

/-- The comprehension over `original.split` of a newline: keep lines whose
strip is non-empty and whose raw length exceeds 20, stripped. -/
def goodLines (l : List Char) : List (List Char) :=
  ((splitOnNl l).filter (fun s => !(stripPy s).isEmpty && 20 < s.length)).map stripPy

/-- Pattern removal stages of `clean_content`: artifact patterns, then
bracketed fragments, then parenthesised instructions. -/
def cleanStage1 (l : List Char) : List Char :=
  subAll matchParenInstr [] (subAll matchBracket [] (stripArtifacts l))

/-- Whitespace collapse and strip stage of `clean_content`. -/
def cleanStage2 (l : List Char) : List Char :=
  stripPy (subAll matchWS [' '] (cleanStage1 l))

/-- First-sentence truncation stage of `clean_content`. -/
def cleanSentence (l : List Char) : List Char :=
  if 20 < (firstSentence l).length then firstSentence l ++ ['.'] else l

/-- Secondary-denylist fallback stage of `clean_content`: on a hit, take
the first usable line of the original text, if any. -/
def cleanFinal (orig t5 : List Char) : List Char :=
  if secondaryHit t5 then
    match goodLines orig with
    | g :: _ => g
    | [] => t5
  else t5

/-- `clean_content` from src/backend.py. -/
def clean_content (text0 : List Char) : List Char :=
  stripPy (cleanFinal text0 (cleanSentence (cleanStage2 text0)))

/-- `MAX_POST_LEN` from src/backend.py. -/
def MAX_POST_LEN : Nat := 750

/-- `MAX_COMMENT_LEN` from src/backend.py. -/
def MAX_COMMENT_LEN : Nat := 750

/-- The artifact markers checked by `generate_post_content`. -/
def postMarkers : List (List Char) :=
  [chars "no hashtags", chars "include", chars "use at least", chars "write a comment", chars "post:"]

/-- The artifact markers checked by `generate_comment_content`. -/
def commentMarkers : List (List Char) :=
  [chars "include", chars "use", chars "write a comment"]

/-- The per-attempt acceptance check of `generate_post_content`:
`cleaned and len(cleaned) > 30 and not any(marker in cleaned.lower())`. -/
def postAcceptable (l : List Char) : Bool :=
  !l.isEmpty && 30 < l.length && !(postMarkers.any (fun m => containsCI m l))

/-- The per-attempt acceptance check of `generate_comment_content`:
`cleaned and len(cleaned) > 15 and not any(marker in cleaned.lower())`. -/
def commentAcceptable (l : List Char) : Bool :=
  !l.isEmpty && 15 < l.length && !(commentMarkers.any (fun m => containsCI m l))

/-- The fixed post fallback text built around the topic. -/
def postFallback (topic : List Char) : List Char :=
  chars "I" ++ [Char.ofNat 39] ++ chars "ve been thinking about " ++ topic ++ chars " lately..."

/-- The fixed comment fallback text. -/
def commentFallback : List Char := chars "Interesting post!"

/-- `generate_post_content` from src/backend.py.  The two calls to
`model_manager.generate` are abstracted by `gen`, indexed by attempt;
a raised exception is an `Except.error`. -/
def generate_post_content (topic : List Char) (gen : Nat → Except String (List Char)) :
    Except String (List Char) :=
  match gen 0 with
  | .error e => .error e
  | .ok raw0 =>
    let c0 := clean_content raw0
    if postAcceptable c0 then .ok (c0.take MAX_POST_LEN)
    else
      match gen 1 with
      | .error e => .error e
      | .ok raw1 =>
        let c1 := clean_content raw1
        if postAcceptable c1 then .ok (c1.take MAX_POST_LEN)
        else .ok (if c1.isEmpty then postFallback topic else c1.take MAX_POST_LEN)

/-- `generate_comment_content` from src/backend.py, abstracted the same
way; the persona and post only shape the prompt behind `gen`. -/
def generate_comment_content (gen : Nat → Except String (List Char)) :
    Except String (List Char) :=
  match gen 0 with
  | .error e => .error e
  | .ok raw0 =>
    let c0 := clean_content raw0
    if commentAcceptable c0 then .ok (c0.take MAX_COMMENT_LEN)
    else
      match gen 1 with
      | .error e => .error e
      | .ok raw1 =>
        let c1 := clean_content raw1
        if commentAcceptable c1 then .ok (c1.take MAX_COMMENT_LEN)
        else .ok (if c1.isEmpty then commentFallback else c1.take MAX_COMMENT_LEN)

/-- A persona row of the persona store. -/
structure Persona where
  name : List Char
  style : List Char
deriving DecidableEq

/-- A scheduled comment-generation task: the arguments the executor binds
for one persona. -/
structure CommentTask where
  post_id : Nat
  post_content : List Char
  persona : Persona
  device_id : Nat
deriving DecidableEq

/-- The enumerated loop body of `submit_post_comments`, carrying the
running persona ordinal. -/
def submitAux (post_id : Nat) (post_content : List Char) (numModels : Nat) :
    Nat → List Persona → List CommentTask
  | _, [] => []
  | i, p :: ps =>
    ⟨post_id, post_content, p, i % numModels⟩ :: submitAux post_id post_content numModels (i + 1) ps

/-- `ParallelCommentGenerator.submit_post_comments` from src/backend.py:
one task per persona, device `i % numModels` for ordinal `i`. -/
def submit_post_comments (personas : List Persona) (numModels : Nat) (post_id : Nat)
    (post_content : List Char) : List CommentTask :=
  submitAux post_id post_content numModels 0 personas

/-- A persisted post row. -/
structure PostRow where
  content : List Char
  author : List Char
  is_ai : Bool

/-- A persisted comment row. -/
structure CommentRow where
  post_id : Nat
  content : List Char
  author : List Char

/-- `Database.add_post` from src/backend.py: insert `content[:MAX_POST_LEN]`
and return the new autoincrement row id. -/
def add_post (posts : List PostRow) (content author : List Char) (is_ai : Bool) :
    List PostRow × Nat :=
  (posts ++ [⟨content.take MAX_POST_LEN, author, is_ai⟩], posts.length + 1)

/-- `Database.add_comment` from src/backend.py: insert
`content[:MAX_COMMENT_LEN]`. -/
def add_comment (comments : List CommentRow) (post_id : Nat) (content author : List Char) :
    List CommentRow :=
  comments ++ [⟨post_id, content.take MAX_COMMENT_LEN, author⟩]

/-- Total list lookup used by the concurrency model. -/
def nth {α : Type} : List α → Nat → Option α
  | [], _ => none
  | a :: _, 0 => some a
  | _ :: t, n + 1 => nth t n

/-- Phase of one generation task with respect to its compute resource. -/
inductive Phase where
  | idle
  | generating
  | done
deriving DecidableEq

/-- Concurrency model of `DualModelManager.generate`: each task targets a
resource index; each resource has a mutual-exclusion guard recording the
holding task. -/
structure Sys where
  tasks : List (Nat × Phase)
  locks : List (Option Nat)

/-- Interleaving steps: a task acquires its resource lock when free and
enters the generate body; leaving the `with lock:` block releases it. -/
inductive Step : Sys → Sys → Prop where
  | acquire (s : Sys) (t r : Nat) :
      nth s.tasks t = some (r, Phase.idle) →
      nth s.locks r = some none →
      Step s ⟨s.tasks.set t (r, Phase.generating), s.locks.set r (some t)⟩
  | release (s : Sys) (t r : Nat) :
      nth s.tasks t = some (r, Phase.generating) →
      Step s ⟨s.tasks.set t (r, Phase.done), s.locks.set r none⟩

/-- Reachability by interleaved steps. -/
inductive Reach : Sys → Sys → Prop where
  | refl (s : Sys) : Reach s s
  | tail {s u v : Sys} : Reach s u → Step u v → Reach s v

/-- Initial state: every task idle on its assigned resource, every lock
free. -/
def initSys (resOf : List Nat) (numRes : Nat) : Sys :=
  ⟨resOf.map (fun r => (r, Phase.idle)), List.replicate numRes none⟩

/-- Lock-ownership invariant: a task inside the generate body holds its
resource's guard. -/
def Inv (s : Sys) : Prop :=
  ∀ t r, nth s.tasks t = some (r, Phase.generating) → nth s.locks r = some (some t)

/-- Concrete input of the idempotence counterexample: a short first line
carrying a secondary marker and a long second line. -/
def c5Input : List Char := chars "short: include stuff\nThis line is quite long indeed yes"

/-- Concrete input of the monotonicity counterexample: accepted as is, but
collapsed far below the length threshold by cleaning. -/
def c6Input : List Char := chars "a" ++ List.replicate 31 ' ' ++ chars "bc"

/-- Four personas for the fan-out example scenario. -/
def demoPersonas : List Persona :=
  [⟨chars "A", chars "a"⟩, ⟨chars "B", chars "b"⟩, ⟨chars "C", chars "c"⟩, ⟨chars "D", chars "d"⟩]

/- ===================== Theorems ===================== -/

lemma take_ne_nil {α : Type} (l : List α) (n : Nat) (h : l ≠ []) (hn : 0 < n) :
    l.take n ≠ [] := by
  cases l with
  | nil => exact absurd rfl h
  | cons a t =>
    cases n with
    | zero => omega
    | succ m => simp

lemma postAcceptable_iff (l : List Char) :
    postAcceptable l = true ↔ 30 < l.length ∧ ∀ m ∈ postMarkers, containsCI m l = false := by
  unfold postAcceptable
  rw [Bool.and_eq_true, Bool.and_eq_true]
  constructor
  · rintro ⟨⟨-, h2⟩, h3⟩
    refine ⟨by simpa using h2, ?_⟩
    intro m hm
    rw [Bool.not_eq_true', List.any_eq_false] at h3
    simpa using h3 m hm
  · rintro ⟨h2, h3⟩
    refine ⟨⟨?_, by simpa using h2⟩, ?_⟩
    · cases l with
      | nil => simp at h2
      | cons a t => rfl
    · rw [Bool.not_eq_true', List.any_eq_false]
      intro m hm
      simp [h3 m hm]

lemma commentAcceptable_iff (l : List Char) :
    commentAcceptable l = true ↔ 15 < l.length ∧ ∀ m ∈ commentMarkers, containsCI m l = false := by
  unfold commentAcceptable
  rw [Bool.and_eq_true, Bool.and_eq_true]
  constructor
  · rintro ⟨⟨-, h2⟩, h3⟩
    refine ⟨by simpa using h2, ?_⟩
    intro m hm
    rw [Bool.not_eq_true', List.any_eq_false] at h3
    simpa using h3 m hm
  · rintro ⟨h2, h3⟩
    refine ⟨⟨?_, by simpa using h2⟩, ?_⟩
    · cases l with
      | nil => simp at h2
      | cons a t => rfl
    · rw [Bool.not_eq_true', List.any_eq_false]
      intro m hm
      simp [h3 m hm]

/-- C4 counterexample: on the spec example input, `clean_content` does not
return the claimed string (the leading non-matching sentence is kept,
because the first sentence segment is 4 characters, not more than 20). -/
theorem c4_counterexample :
    clean_content (chars "Sure! No hashtags. I love hiking in the mountains every weekend.") ≠
      chars "I love hiking in the mountains every weekend." := by decide

/-- C4 (amended): on the input
`Sure! No hashtags. I love hiking in the mountains every weekend.`
the sanitizer strips the denylist phrase and collapses whitespace but keeps
the leading `Sure!`, returning
`Sure! I love hiking in the mountains every weekend.`. -/
theorem c4_cleaned :
    clean_content (chars "Sure! No hashtags. I love hiking in the mountains every weekend.") =
      chars "Sure! I love hiking in the mountains every weekend." := by decide

/-- C9: both storage operations persist exactly the first 750 characters of
the given content: the stored row carries `content.take 750`, whose length
never exceeds 750, and content of length at most 750 is stored unchanged. -/
theorem c9_stored_length :
    ∀ (posts : List PostRow) (content author : List Char) (is_ai : Bool)
      (comments : List CommentRow) (pid : Nat) (ccontent cauthor : List Char),
      add_post posts content author is_ai =
        (posts ++ [⟨content.take 750, author, is_ai⟩], posts.length + 1) ∧
      (content.take 750).length ≤ 750 ∧
      add_comment comments pid ccontent cauthor =
        comments ++ [⟨pid, ccontent.take 750, cauthor⟩] ∧
      (ccontent.take 750).length ≤ 750 ∧
      (∀ l : List Char, l.length ≤ 750 → l.take 750 = l) := by
  intro posts content author is_ai comments pid cc ca
  refine ⟨rfl, List.length_take_le _ _, rfl, List.length_take_le _ _, ?_⟩
  intro l hl
  exact List.take_of_length_le hl

/-- C9 witness: the theorem applied to concrete rows, with the inner
hypothesis discharged on short content. -/
theorem c9_witness :
    add_post [] (chars "hello") (chars "me") false =
      ([⟨(chars "hello").take 750, chars "me", false⟩], 1) ∧
    (chars "hello").take 750 = chars "hello" :=
  ⟨(c9_stored_length [] (chars "hello") (chars "me") false [] 0 [] []).1,
   (c9_stored_length [] (chars "hello") (chars "me") false [] 0 [] []).2.2.2.2
     (chars "hello") (by decide)⟩

/-- C10: the comment acceptance check rejects every cleaned text containing
the bare substring `use` case-insensitively anywhere, since `use` is one of
the comment artifact markers tested by substring inclusion. -/
theorem c10_bare_use_rejected :
    ∀ l : List Char, containsCI (chars "use") l = true → commentAcceptable l = false := by
  intro l h
  unfold commentAcceptable
  have : commentMarkers.any (fun m => containsCI m l) = true := by
    unfold commentMarkers
    simp only [List.any_cons, Bool.or_eq_true]
    exact Or.inr (Or.inl h)
  simp [this]

/-- C10 witness: an ordinary comment containing `because` is rejected. -/
theorem c10_witness :
    commentAcceptable (chars "I stayed home because of the rain") = false :=
  c10_bare_use_rejected _ (by decide)

/-- C7 counterexample: a marker-free non-empty string of length exactly 30
has length at least the post minimum yet is rejected, because the code
requires the length to strictly exceed 30. -/
theorem c7_counterexample :
    (List.replicate 30 'a' ≠ ([] : List Char)) ∧
    (List.replicate 30 'a').length = 30 ∧
    (∀ m ∈ postMarkers, containsCI m (List.replicate 30 'a') = false) ∧
    postAcceptable (List.replicate 30 'a') = false := by decide

/-- C7 (amended): the acceptance checks accept exactly the strings whose
length strictly exceeds the minimum (30 for posts, 15 for comments) and
that contain no kind-specific denylist marker; non-emptiness is implied. -/
theorem c7_acceptance_characterization :
    ∀ l : List Char,
      (postAcceptable l = true ↔
        30 < l.length ∧ ∀ m ∈ postMarkers, containsCI m l = false) ∧
      (commentAcceptable l = true ↔
        15 < l.length ∧ ∀ m ∈ commentMarkers, containsCI m l = false) :=
  fun l => ⟨postAcceptable_iff l, commentAcceptable_iff l⟩

/-- C7 witness: a 31-character marker-free string is accepted for posts. -/
theorem c7_witness : postAcceptable (List.replicate 31 'a') = true :=
  (c7_acceptance_characterization (List.replicate 31 'a')).1.2 ⟨by decide, by decide⟩

/-- C8: whenever an attempt's cleaned output passes the acceptance check,
the generation functions return exactly the first 750 characters of that
untruncated cleaned output, for both attempts and both kinds; cleaned
output of length at most 750 is returned whole. -/
theorem c8_truncate_after_accept :
    (∀ (topic : List Char) (gen : Nat → Except String (List Char)) (raw0 : List Char),
       gen 0 = Except.ok raw0 → postAcceptable (clean_content raw0) = true →
       generate_post_content topic gen = Except.ok ((clean_content raw0).take MAX_POST_LEN)) ∧
    (∀ (topic : List Char) (gen : Nat → Except String (List Char)) (raw0 raw1 : List Char),
       gen 0 = Except.ok raw0 → postAcceptable (clean_content raw0) = false →
       gen 1 = Except.ok raw1 → postAcceptable (clean_content raw1) = true →
       generate_post_content topic gen = Except.ok ((clean_content raw1).take MAX_POST_LEN)) ∧
    (∀ (gen : Nat → Except String (List Char)) (raw0 : List Char),
       gen 0 = Except.ok raw0 → commentAcceptable (clean_content raw0) = true →
       generate_comment_content gen = Except.ok ((clean_content raw0).take MAX_COMMENT_LEN)) ∧
    (∀ (gen : Nat → Except String (List Char)) (raw0 raw1 : List Char),
       gen 0 = Except.ok raw0 → commentAcceptable (clean_content raw0) = false →
       gen 1 = Except.ok raw1 → commentAcceptable (clean_content raw1) = true →
       generate_comment_content gen = Except.ok ((clean_content raw1).take MAX_COMMENT_LEN)) ∧
    (∀ l : List Char, l.length ≤ MAX_POST_LEN → l.take MAX_POST_LEN = l) := by
  refine ⟨?_, ?_, ?_, ?_, ?_⟩
  · intro topic gen raw0 h0 hacc
    simp [generate_post_content, h0, hacc]
  · intro topic gen raw0 raw1 h0 hacc0 h1 hacc1
    simp [generate_post_content, h0, hacc0, h1, hacc1]
  · intro gen raw0 h0 hacc
    simp [generate_comment_content, h0, hacc]
  · intro gen raw0 raw1 h0 hacc0 h1 hacc1
    simp [generate_comment_content, h0, hacc0, h1, hacc1]
  · intro l hl
    exact List.take_of_length_le hl

/-- C8 witness: a first attempt whose cleaned output is accepted is
returned truncated to 750 characters. -/
theorem c8_witness :
    generate_post_content (chars "t")
        (fun _ => Except.ok (chars "This is a wonderful sunny day in the park with friends")) =
      Except.ok ((clean_content
        (chars "This is a wonderful sunny day in the park with friends")).take MAX_POST_LEN) :=
  c8_truncate_after_accept.1 (chars "t") _ _ rfl (by decide)

/-- C1 counterexample: when the underlying compute call raises, the error
propagates out of `generate_post_content` instead of degrading to the
fallback text, so the function does not catch generation errors. -/
theorem c1_counterexample :
    generate_post_content (chars "rain") (fun _ => Except.error "model failure") =
      Except.error "model failure" := rfl

/-- C1 (amended): when every underlying compute call returns normally, both
generation functions return non-empty text (acceptance exhaustion degrades
to the final cleaned attempt or to the fixed fallback); a raising compute
call propagates its error to the caller. -/
theorem c1_nonempty_amended :
    (∀ (topic : List Char) (g : Nat → List Char), ∃ r,
       generate_post_content topic (fun i => Except.ok (g i)) = Except.ok r ∧ r ≠ []) ∧
    (∀ g : Nat → List Char, ∃ r,
       generate_comment_content (fun i => Except.ok (g i)) = Except.ok r ∧ r ≠ []) ∧
    (∀ (topic : List Char) (e : String),
       generate_post_content topic (fun _ => Except.error e) = Except.error e) ∧
    (∀ e : String, generate_comment_content (fun _ => Except.error e) = Except.error e) := by
  have hfall : ∀ topic : List Char, postFallback topic ≠ [] := by
    intro topic
    have h1 : chars "I" = ['I'] := rfl
    simp [postFallback, h1]
  refine ⟨?_, ?_, fun _ _ => rfl, fun _ => rfl⟩
  · intro topic g
    by_cases h0 : postAcceptable (clean_content (g 0))
    · refine ⟨(clean_content (g 0)).take MAX_POST_LEN,
        by simp [generate_post_content, h0], ?_⟩
      have := (postAcceptable_iff _).mp h0
      exact take_ne_nil _ _ (by rw [← List.length_pos]; omega) (by norm_num [MAX_POST_LEN])
    · by_cases h1 : postAcceptable (clean_content (g 1))
      · refine ⟨(clean_content (g 1)).take MAX_POST_LEN,
          by simp [generate_post_content, h0, h1], ?_⟩
        have := (postAcceptable_iff _).mp h1
        exact take_ne_nil _ _ (by rw [← List.length_pos]; omega) (by norm_num [MAX_POST_LEN])
      · by_cases hemp : (clean_content (g 1)).isEmpty
        · exact ⟨postFallback topic,
            by simp [generate_post_content, h0, h1, hemp], hfall topic⟩
        · refine ⟨(clean_content (g 1)).take MAX_POST_LEN,
            by simp [generate_post_content, h0, h1, hemp], ?_⟩
          have hne : clean_content (g 1) ≠ [] := by simpa using hemp
          exact take_ne_nil _ _ hne (by norm_num [MAX_POST_LEN])
  · intro g
    by_cases h0 : commentAcceptable (clean_content (g 0))
    · refine ⟨(clean_content (g 0)).take MAX_COMMENT_LEN,
        by simp [generate_comment_content, h0], ?_⟩
      have := (commentAcceptable_iff _).mp h0
      exact take_ne_nil _ _ (by rw [← List.length_pos]; omega) (by norm_num [MAX_COMMENT_LEN])
    · by_cases h1 : commentAcceptable (clean_content (g 1))
      · refine ⟨(clean_content (g 1)).take MAX_COMMENT_LEN,
          by simp [generate_comment_content, h0, h1], ?_⟩
        have := (commentAcceptable_iff _).mp h1
        exact take_ne_nil _ _ (by rw [← List.length_pos]; omega) (by norm_num [MAX_COMMENT_LEN])
      · by_cases hemp : (clean_content (g 1)).isEmpty
        · exact ⟨commentFallback,
            by simp [generate_comment_content, h0, h1, hemp], by decide⟩
        · refine ⟨(clean_content (g 1)).take MAX_COMMENT_LEN,
            by simp [generate_comment_content, h0, h1, hemp], ?_⟩
          have hne : clean_content (g 1) ≠ [] := by simpa using hemp
          exact take_ne_nil _ _ hne (by norm_num [MAX_COMMENT_LEN])

lemma submitAux_length (post_id : Nat) (post_content : List Char) (numModels : Nat) :
    ∀ (ps : List Persona) (i : Nat),
      (submitAux post_id post_content numModels i ps).length = ps.length := by
  intro ps
  induction ps with
  | nil => intro i; rfl
  | cons q qs ih => intro i; simp [submitAux, ih]

lemma submitAux_nth (post_id : Nat) (post_content : List Char) (numModels : Nat) :
    ∀ (ps : List Persona) (i j : Nat) (p : Persona),
      nth ps j = some p →
      nth (submitAux post_id post_content numModels i ps) j =
        some ⟨post_id, post_content, p, (i + j) % numModels⟩ := by
  intro ps
  induction ps with
  | nil => intro i j p h; simp [nth] at h
  | cons q qs ih =>
    intro i j p h
    cases j with
    | zero =>
      simp [nth] at h
      simp [submitAux, nth, ← h]
    | succ j' =>
      simp only [nth] at h
      have hrec := ih (i + 1) j' p h
      have e : i + 1 + j' = i + (j' + 1) := by omega
      rw [e] at hrec
      simpa [submitAux, nth] using hrec

/-- C2: `submit_post_comments` schedules exactly one task per persona (the
returned list has the personas' length), the task of the persona at ordinal
`i` is bound to that persona with resource index `i mod R`, and with 4
personas and 2 resources the device assignment in persona order is
`[0, 1, 0, 1]`. -/
theorem c2_fanout :
    (∀ (personas : List Persona) (numModels post_id : Nat) (content : List Char),
       0 < numModels →
       (submit_post_comments personas numModels post_id content).length = personas.length ∧
       (∀ j p, nth personas j = some p →
          nth (submit_post_comments personas numModels post_id content) j =
            some ⟨post_id, content, p, j % numModels⟩)) ∧
    (submit_post_comments demoPersonas 2 1 (chars "post text")).map
        (fun t => t.device_id) = [0, 1, 0, 1] := by
  constructor
  · intro personas numModels post_id content _
    refine ⟨submitAux_length post_id content numModels personas 0, ?_⟩
    intro j p h
    have := submitAux_nth post_id content numModels personas 0 j p h
    simpa using this
  · rfl

/-- C2 witness: the fan-out of the four demo personas over two resources,
with the last persona bound to resource 1. -/
theorem c2_witness :
    (submit_post_comments demoPersonas 2 1 (chars "hi")).length = demoPersonas.length ∧
    nth (submit_post_comments demoPersonas 2 1 (chars "hi")) 3 =
      some ⟨1, chars "hi", ⟨chars "D", chars "d"⟩, 1⟩ := by
  have h := c2_fanout.1 demoPersonas 2 1 (chars "hi") (by decide)
  exact ⟨h.1, h.2 3 ⟨chars "D", chars "d"⟩ (by decide)⟩

lemma nth_lt_length {α : Type} : ∀ (l : List α) (i : Nat) (a : α),
    nth l i = some a → i < l.length := by
  intro l
  induction l with
  | nil => intro i a h; simp [nth] at h
  | cons x t ih =>
    intro i a h
    cases i with
    | zero => simp
    | succ j =>
      have := ih j a h
      simp only [List.length_cons]
      omega

lemma nth_set_self {α : Type} : ∀ (l : List α) (i : Nat) (a : α),
    i < l.length → nth (l.set i a) i = some a := by
  intro l
  induction l with
  | nil => intro i a h; simp at h
  | cons x t ih =>
    intro i a h
    cases i with
    | zero => rfl
    | succ j =>
      simp only [List.set_cons_succ, nth]
      exact ih j a (by simp at h; omega)

lemma nth_set_other {α : Type} : ∀ (l : List α) (i j : Nat) (a : α),
    i ≠ j → nth (l.set i a) j = nth l j := by
  intro l
  induction l with
  | nil => intro i j a _; cases i <;> rfl
  | cons x t ih =>
    intro i j a hne
    cases i with
    | zero =>
      cases j with
      | zero => exact absurd rfl hne
      | succ j' => rfl
    | succ i' =>
      cases j with
      | zero => rfl
      | succ j' =>
        simp only [List.set_cons_succ, nth]
        exact ih i' j' a (by omega)

lemma inv_step {s u : Sys} (hs : Inv s) (st : Step s u) : Inv u := by
  cases st with
  | acquire t r ht hr =>
    intro t' r' h'
    by_cases htt : t' = t
    · subst htt
      rw [nth_set_self _ _ _ (nth_lt_length _ _ _ ht)] at h'
      simp only [Option.some.injEq, Prod.mk.injEq] at h'
      obtain ⟨hr', -⟩ := h'
      subst hr'
      exact nth_set_self _ _ _ (nth_lt_length _ _ _ hr)
    · rw [nth_set_other _ _ _ _ (fun he => htt he.symm)] at h'
      have hold := hs t' r' h'
      by_cases hrr : r' = r
      · subst hrr
        rw [hold] at hr
        simp at hr
      · rw [nth_set_other _ _ _ _ (fun he => hrr he.symm)]
        exact hold
  | release t r ht =>
    intro t' r' h'
    by_cases htt : t' = t
    · subst htt
      rw [nth_set_self _ _ _ (nth_lt_length _ _ _ ht)] at h'
      simp at h'
    · rw [nth_set_other _ _ _ _ (fun he => htt he.symm)] at h'
      have hold := hs t' r' h'
      by_cases hrr : r' = r
      · subst hrr
        have holdt := hs t _ ht
        rw [hold] at holdt
        simp only [Option.some.injEq] at holdt
        exact absurd holdt htt
      · rw [nth_set_other _ _ _ _ (fun he => hrr he.symm)]
        exact hold

lemma nth_map {α β : Type} (f : α → β) : ∀ (l : List α) (i : Nat),
    nth (l.map f) i = (nth l i).map f := by
  intro l
  induction l with
  | nil => intro i; rfl
  | cons x t ih =>
    intro i
    cases i with
    | zero => rfl
    | succ j => exact ih j

lemma inv_init (resOf : List Nat) (numRes : Nat) : Inv (initSys resOf numRes) := by
  intro t r h
  unfold initSys at h
  simp only at h
  rw [nth_map] at h
  cases hn : nth resOf t with
  | none => rw [hn] at h; simp at h
  | some x =>
    rw [hn] at h
    simp at h

lemma inv_reach {s u : Sys} (hr : Reach s u) (hs : Inv s) : Inv u := by
  induction hr with
  | refl => exact hs
  | tail _ st ih => exact inv_step ih st

/-- C3: under the interleaving model of the per-resource locks, the
generate body is never entered re-entrantly on one resource (any two tasks
generating on the same resource index are equal), while two tasks on
distinct resource indices can be inside the generate body simultaneously
in a reachable state. -/
theorem c3_resource_exclusivity :
    (∀ (resOf : List Nat) (numRes : Nat) (s : Sys),
       Reach (initSys resOf numRes) s →
       ∀ t₁ t₂ r, nth s.tasks t₁ = some (r, Phase.generating) →
         nth s.tasks t₂ = some (r, Phase.generating) → t₁ = t₂) ∧
    (∃ s : Sys, Reach (initSys [0, 1] 2) s ∧
       nth s.tasks 0 = some (0, Phase.generating) ∧
       nth s.tasks 1 = some (1, Phase.generating)) := by
  constructor
  · intro resOf numRes s hreach t₁ t₂ r h1 h2
    have hinv : Inv s := inv_reach hreach (inv_init resOf numRes)
    have e1 := hinv t₁ r h1
    have e2 := hinv t₂ r h2
    rw [e1] at e2
    simp only [Option.some.injEq] at e2
    exact e2
  · refine ⟨⟨[(0, Phase.generating), (1, Phase.generating)], [some 0, some 1]⟩,
      ?_, rfl, rfl⟩
    have st1 : Step (initSys [0, 1] 2)
        ⟨[(0, Phase.generating), (1, Phase.idle)], [some 0, none]⟩ :=
      Step.acquire (initSys [0, 1] 2) 0 0 rfl rfl
    have st2 : Step (⟨[(0, Phase.generating), (1, Phase.idle)], [some 0, none]⟩ : Sys)
        ⟨[(0, Phase.generating), (1, Phase.generating)], [some 0, some 1]⟩ :=
      Step.acquire _ 1 1 rfl rfl
    exact Reach.tail (Reach.tail (Reach.refl _) st1) st2

/-- C3 witness: mutual exclusion applied in a concrete reachable state with
one task inside the generate body of resource 0. -/
theorem c3_witness : (0 : Nat) = 0 :=
  c3_resource_exclusivity.1 [0, 1] 2
    ⟨[(0, Phase.generating), (1, Phase.idle)], [some 0, none]⟩
    (Reach.tail (Reach.refl _) (Step.acquire (initSys [0, 1] 2) 0 0 rfl rfl))
    0 0 0 rfl rfl

lemma dropWhile_length_le (p : Char → Bool) (l : List Char) :
    (l.dropWhile p).length ≤ l.length := by
  induction l with
  | nil => simp
  | cons a t ih =>
    rw [List.dropWhile_cons]
    by_cases hp : p a
    · simp only [hp, if_true]
      exact Nat.le_trans ih (Nat.le_succ _)
    · simp [hp]

lemma dropWhile_eq_self_of_length (p : Char → Bool) (l : List Char)
    (h : (l.dropWhile p).length = l.length) : l.dropWhile p = l := by
  cases l with
  | nil => rfl
  | cons a t =>
    rw [List.dropWhile_cons] at h ⊢
    by_cases hp : p a
    · exfalso
      have := dropWhile_length_le p t
      simp only [hp, if_true, List.length_cons] at h
      omega
    · simp [hp]

lemma strip_fix_front (l : List Char) (h : stripPy l = l) : l.dropWhile pyWS = l := by
  have hle1 : (stripPy l).length ≤ (l.dropWhile pyWS).length := by
    unfold stripPy
    rw [List.length_reverse]
    calc ((l.dropWhile pyWS).reverse.dropWhile pyWS).length
        ≤ (l.dropWhile pyWS).reverse.length := dropWhile_length_le _ _
      _ = (l.dropWhile pyWS).length := List.length_reverse _
  apply dropWhile_eq_self_of_length
  have hle2 := dropWhile_length_le pyWS l
  rw [h] at hle1
  omega

lemma strip_sandwich (a b : Char) (m : List Char) (ha : pyWS a = false) (hb : pyWS b = false) :
    stripPy (a :: (m ++ [b])) = a :: (m ++ [b]) := by
  unfold stripPy
  rw [List.dropWhile_cons]
  simp only [ha, Bool.false_eq_true, if_false]
  have hrev : (a :: (m ++ [b])).reverse = b :: (m.reverse ++ [a]) := by simp
  rw [hrev, List.dropWhile_cons]
  simp only [hb, Bool.false_eq_true, if_false]
  rw [← hrev, List.reverse_reverse]

lemma takeWhile_head (p : Char → Bool) (s : List Char) (c : Char) (rest : List Char)
    (h : s.takeWhile p = c :: rest) : ∃ s', s = c :: s' := by
  cases s with
  | nil => simp at h
  | cons a t =>
    rw [List.takeWhile_cons] at h
    by_cases hp : p a
    · simp only [hp, if_true] at h
      injection h with h1 _
      exact ⟨t, by rw [h1]⟩
    · simp [hp] at h

lemma strip_head_not_ws {s : List Char} {c : Char} {s' : List Char}
    (h : stripPy s = s) (hs : s = c :: s') : pyWS c = false := by
  have hd := strip_fix_front s h
  rw [hs, List.dropWhile_cons] at hd
  by_cases hp : pyWS c
  · exfalso
    simp only [hp, if_true] at hd
    have := dropWhile_length_le pyWS s'
    have hlen := congrArg List.length hd
    simp only [List.length_cons] at hlen
    omega
  · simpa using hp

lemma startsWithCI_nil_pat : ∀ l : List Char, startsWithCI l [] = true := by
  intro l
  cases l <;> rfl

lemma startsWithCI_append (pat : List Char) : ∀ (l e : List Char),
    startsWithCI l pat = true → startsWithCI (l ++ e) pat = true := by
  induction pat with
  | nil => intro l e _; exact startsWithCI_nil_pat _
  | cons d ds ih =>
    intro l e h
    cases l with
    | nil => simp [startsWithCI] at h
    | cons c cs =>
      rw [List.cons_append]
      unfold startsWithCI at h ⊢
      rw [Bool.and_eq_true] at h ⊢
      exact ⟨h.1, ih cs e h.2⟩

lemma containsCI_nil : ∀ l : List Char, containsCI [] l = true := by
  intro l
  cases l with
  | nil => rfl
  | cons c cs => rfl

lemma containsCI_append_right (pat : List Char) : ∀ (a e : List Char),
    containsCI pat a = true → containsCI pat (a ++ e) = true := by
  intro a
  induction a with
  | nil =>
    intro e h
    have hp : pat = [] := by
      unfold containsCI at h
      simpa [List.isEmpty_iff] using h
    subst hp
    exact containsCI_nil _
  | cons c cs ih =>
    intro e h
    unfold containsCI at h
    rw [Bool.or_eq_true] at h
    rw [List.cons_append]
    unfold containsCI
    rw [Bool.or_eq_true]
    cases h with
    | inl hsw =>
      left
      have := startsWithCI_append pat (c :: cs) e hsw
      rwa [List.cons_append] at this
    | inr hc => exact Or.inr (ih e hc)

lemma startsWithCI_snoc (ch : Char) : ∀ (pat a : List Char),
    startsWithCI (a ++ [ch]) pat = true →
    startsWithCI a pat = true ∨ ∃ x ∈ pat, eqCI ch x = true := by
  intro pat
  induction pat with
  | nil => intro a _; exact Or.inl (startsWithCI_nil_pat a)
  | cons d ds ih =>
    intro a h
    cases a with
    | nil =>
      right
      rw [List.nil_append] at h
      unfold startsWithCI at h
      rw [Bool.and_eq_true] at h
      exact ⟨d, by simp, h.1⟩
    | cons c cs =>
      rw [List.cons_append] at h
      unfold startsWithCI at h
      rw [Bool.and_eq_true] at h
      rcases ih cs h.2 with hl | hr
      · left
        unfold startsWithCI
        rw [Bool.and_eq_true]
        exact ⟨h.1, hl⟩
      · right
        obtain ⟨x, hx, he⟩ := hr
        exact ⟨x, by simp [hx], he⟩

lemma containsCI_snoc (ch : Char) (pat : List Char) : ∀ (a : List Char),
    containsCI pat (a ++ [ch]) = true →
    containsCI pat a = true ∨ ∃ x ∈ pat, eqCI ch x = true := by
  intro a
  induction a with
  | nil =>
    intro h
    rw [List.nil_append] at h
    unfold containsCI at h
    rw [Bool.or_eq_true] at h
    cases h with
    | inl hsw =>
      rcases startsWithCI_snoc ch pat [] (by simpa using hsw) with hl | hr
      · left
        cases pat with
        | nil => rfl
        | cons d ds => simp [startsWithCI] at hl
      · exact Or.inr hr
    | inr hc =>
      left
      have hp : pat = [] := by
        unfold containsCI at hc
        simpa [List.isEmpty_iff] using hc
      subst hp
      rfl
  | cons c cs ih =>
    intro h
    rw [List.cons_append] at h
    unfold containsCI at h
    rw [Bool.or_eq_true] at h
    cases h with
    | inl hsw =>
      rw [← List.cons_append] at hsw
      rcases startsWithCI_snoc ch pat (c :: cs) hsw with hl | hr
      · left
        unfold containsCI
        rw [Bool.or_eq_true]
        exact Or.inl hl
      · exact Or.inr hr
    | inr hc =>
      rcases ih hc with hl | hr
      · left
        unfold containsCI
        rw [Bool.or_eq_true]
        exact Or.inr hl
      · exact Or.inr hr

lemma containsCI_firstSentence_dot {m s : List Char}
    (hm : containsCI m s = false) (hdot : ∀ x ∈ m, eqCI '.' x = false) :
    containsCI m (firstSentence s ++ ['.']) = false := by
  by_contra hcon
  rw [Bool.not_eq_false] at hcon
  rcases containsCI_snoc '.' m (firstSentence s) hcon with hl | ⟨x, hx, he⟩
  · have h2 := containsCI_append_right m (firstSentence s)
      (s.dropWhile (fun c => !sentenceStop c)) hl
    unfold firstSentence at h2
    rw [List.takeWhile_append_dropWhile] at h2
    rw [hm] at h2
    exact Bool.noConfusion h2
  · rw [hdot x hx] at he
    exact Bool.noConfusion he

lemma clean_content_eval (s : List Char)
    (h1 : stripArtifacts s = s) (h2 : subAll matchBracket [] s = s)
    (h3 : subAll matchParenInstr [] s = s) (h4 : subAll matchWS [' '] s = s)
    (h5 : stripPy s = s) (h6 : secondaryHit (cleanSentence s) = false) :
    clean_content s = stripPy (cleanSentence s) := by
  have hs1 : cleanStage1 s = s := by unfold cleanStage1; rw [h1, h2, h3]
  have hs2 : cleanStage2 s = s := by unfold cleanStage2; rw [hs1, h4, h5]
  unfold clean_content cleanFinal
  rw [hs2, h6]
  simp

/-- C5 counterexample: for this input, `clean(x)` contains no further
denylist match (every removal pass leaves it unchanged and it carries no
secondary marker), yet `clean(clean(x))` differs from `clean(x)`: the
secondary-marker fallback returned a raw original line that the second pass
further sentence-truncates. -/
theorem c5_counterexample :
    (stripArtifacts (clean_content c5Input) = clean_content c5Input ∧
     subAll matchBracket [] (clean_content c5Input) = clean_content c5Input ∧
     subAll matchParenInstr [] (clean_content c5Input) = clean_content c5Input ∧
     secondaryHit (clean_content c5Input) = false) ∧
    clean_content (clean_content c5Input) ≠ clean_content c5Input := by decide

/-- C5 (amended): `clean` is idempotent on its own output provided the
output contains no further denylist match (all removal passes leave it
unchanged, no secondary marker), is whitespace-normal (collapse and strip
leave it unchanged), and its first sentence segment is either short (at
most 20 characters) or the output is exactly that segment plus a period.
The extra conditions exclude only outputs produced by the original-line
fallback branch, which can be non-normalized. -/
theorem c5_idempotent_amended :
    ∀ x : List Char,
      stripArtifacts (clean_content x) = clean_content x →
      subAll matchBracket [] (clean_content x) = clean_content x →
      subAll matchParenInstr [] (clean_content x) = clean_content x →
      subAll matchWS [' '] (clean_content x) = clean_content x →
      stripPy (clean_content x) = clean_content x →
      secondaryHit (clean_content x) = false →
      ((firstSentence (clean_content x)).length ≤ 20 ∨
        clean_content x = firstSentence (clean_content x) ++ ['.']) →
      clean_content (clean_content x) = clean_content x := by
  intro x h1 h2 h3 h4 h5 h6 h7
  have hsent : cleanSentence (clean_content x) = clean_content x := by
    unfold cleanSentence
    rcases h7 with h7 | h7
    · rw [if_neg (by omega)]
    · by_cases hl : 20 < (firstSentence (clean_content x)).length
      · rw [if_pos hl, ← h7]
      · rw [if_neg hl]
  rw [clean_content_eval (clean_content x) h1 h2 h3 h4 h5 (by rw [hsent]; exact h6),
    hsent, h5]

/-- C5 witness: a cleaned output of the normal sentence-truncating path is
a fixed point of `clean`. -/
theorem c5_witness :
    clean_content (clean_content (chars "Hello there my good friend. Extra.")) =
      clean_content (chars "Hello there my good friend. Extra.") :=
  c5_idempotent_amended _ (by decide) (by decide) (by decide) (by decide) (by decide)
    (by decide) (by decide)

/-- C6 counterexample: a 34-character marker-free string made mostly of
spaces is accepted for posts, but cleaning collapses the whitespace run and
the result is far below the length threshold, so it is rejected. -/
theorem c6_counterexample :
    postAcceptable c6Input = true ∧ postAcceptable (clean_content c6Input) = false := by decide

/-- C6 (amended): acceptance is monotone under re-cleaning for strings the
removal passes leave unchanged that are whitespace-normal and carry no
secondary marker: such an accepted comment stays accepted, and such an
accepted post stays accepted unless its first sentence segment has between
21 and 30 characters (in which case sentence truncation can drop the length
to at most the post threshold). -/
theorem c6_monotone_amended :
    ∀ s : List Char,
      stripArtifacts s = s → subAll matchBracket [] s = s →
      subAll matchParenInstr [] s = s → subAll matchWS [' '] s = s →
      stripPy s = s → secondaryHit s = false →
      (postAcceptable s = true →
        ((firstSentence s).length ≤ 20 ∨ 29 < (firstSentence s).length) →
        postAcceptable (clean_content s) = true) ∧
      (commentAcceptable s = true → commentAcceptable (clean_content s) = true) := by
  intro s h1 h2 h3 h4 h5 h6
  have hdotSec : ∀ m ∈ secondaryMarkers, ∀ x ∈ m, eqCI '.' x = false := by decide
  have hdotPost : ∀ m ∈ postMarkers, ∀ x ∈ m, eqCI '.' x = false := by decide
  have hdotCom : ∀ m ∈ commentMarkers, ∀ x ∈ m, eqCI '.' x = false := by decide
  by_cases hl : 20 < (firstSentence s).length
  · have hsent : cleanSentence s = firstSentence s ++ ['.'] := by
      unfold cleanSentence
      rw [if_pos hl]
    obtain ⟨c, rest, hfs⟩ : ∃ c rest, firstSentence s = c :: rest := by
      cases hfc : firstSentence s with
      | nil => rw [hfc] at hl; simp at hl
      | cons c rest => exact ⟨c, rest, rfl⟩
    obtain ⟨s', hs'⟩ :=
      takeWhile_head (fun c => !sentenceStop c) s c rest (by rw [← hfs]; rfl)
    have hcw : pyWS c = false := strip_head_not_ws h5 hs'
    have hstrip : stripPy (firstSentence s ++ ['.']) = firstSentence s ++ ['.'] := by
      rw [hfs, List.cons_append]
      exact strip_sandwich c '.' rest hcw (by decide)
    have hsec : secondaryHit (cleanSentence s) = false := by
      rw [hsent]
      unfold secondaryHit at h6 ⊢
      rw [List.any_eq_false] at h6 ⊢
      intro m hm
      have hno : containsCI m s = false := by simpa using h6 m hm
      intro hcon
      rw [containsCI_firstSentence_dot hno (hdotSec m hm)] at hcon
      exact Bool.noConfusion hcon
    have hcc : clean_content s = firstSentence s ++ ['.'] := by
      rw [clean_content_eval s h1 h2 h3 h4 h5 hsec, hsent, hstrip]
    constructor
    · intro hacc hseg
      have h29 : 29 < (firstSentence s).length := by
        rcases hseg with h | h
        · omega
        · exact h
      rw [hcc, postAcceptable_iff]
      obtain ⟨hlen, hmk⟩ := (postAcceptable_iff s).mp hacc
      refine ⟨?_, ?_⟩
      · simp only [List.length_append, List.length_cons, List.length_nil]
        omega
      · intro m hm
        exact containsCI_firstSentence_dot (hmk m hm) (hdotPost m hm)
    · intro hacc
      rw [hcc, commentAcceptable_iff]
      obtain ⟨hlen, hmk⟩ := (commentAcceptable_iff s).mp hacc
      refine ⟨?_, ?_⟩
      · simp only [List.length_append, List.length_cons, List.length_nil]
        omega
      · intro m hm
        exact containsCI_firstSentence_dot (hmk m hm) (hdotCom m hm)
  · have hsent : cleanSentence s = s := by
      unfold cleanSentence
      rw [if_neg hl]
    have hcc : clean_content s = s := by
      rw [clean_content_eval s h1 h2 h3 h4 h5 (by rw [hsent]; exact h6), hsent, h5]
    rw [hcc]
    exact ⟨fun h _ => h, fun h => h⟩

/-- C6 witness: a clean accepted post with a long terminator-free body
stays accepted after re-cleaning (which only appends a period). -/
theorem c6_witness :
    postAcceptable (clean_content (chars "What a lovely evening to walk around the lake")) =
      true :=
  (c6_monotone_amended _ (by decide) (by decide) (by decide) (by decide) (by decide)
      (by decide)).1 (by decide) (by decide)

end OfSM
